import Mathlib

/-!
# loreley: escape-code renderer, style compiler and escape stripping

A shallow embedding of `loreley.go`.

* Go strings are Lean `String`s (sequences of Unicode scalar values).  The only
  characters the program inspects are ASCII (`ESC`, `m`, the template
  delimiters), which are one byte in UTF-8, so matching on characters and
  matching on bytes agree.
* Go `int` is `Int`.  The program does no arithmetic on colours: it stores them
  and prints them in decimal, so no overflow can occur; every 64-bit `int` is
  an `Int`.
* A method on `*Style` that mutates the receiver becomes a function returning
  the emitted text together with the updated receiver.
-/

namespace Loreley

/-! ## Constants -/

/-- CodeStart is an escape sequence for starting color coding. -/
def CodeStart : String := "\x1b"

/-- CodeEnd is an escape sequence for ending color coding. -/
def CodeEnd : String := "m"

/-- AttrForeground is an escape sequence part for setting foreground. -/
def AttrForeground : String := "3"

/-- AttrBackground is an escape sequence part for setting background. -/
def AttrBackground : String := "4"

/-- AttrDefault is an escape sequence part for resetting foreground or background. -/
def AttrDefault : String := "9"

/-- AttrReset is an escape sequence part for resetting all attributes. -/
def AttrReset : String := "0"

/-- AttrReverse is an escape sequence part for setting reverse display. -/
def AttrReverse : String := "7"

/-- AttrNoReverse is an escape sequence part for setting reverse display off. -/
def AttrNoReverse : String := "27"

/-- AttrBold is an escape sequence part for setting bold mode on. -/
def AttrBold : String := "1"

/-- AttrNoBold is an escape sequence part for setting bold mode off. -/
def AttrNoBold : String := "22"

/-- AttrForeground256 is an escape sequence part for setting foreground color in 256 color mode. -/
def AttrForeground256 : String := "38;5"

/-- AttrBackground256 is an escape sequence part for setting background color in 256 color mode. -/
def AttrBackground256 : String := "48;5"

/-- StyleReset is a placeholder for resetting all attributes. -/
def StyleReset : String := "\x7breset\x7d"

/-- DefaultColor represents default foreground and background color. -/
def DefaultColor : Int := 0

/-- DelimLeft is the left template delimiter. -/
def DelimLeft : String := "\x7b"

/-- DelimRight is the right template delimiter. -/
def DelimRight : String := "\x7d"

/-! ## Library functions used by the renderer -/

/-- Go `fmt.Sprint` on an `int`: decimal digits, with a leading minus sign for
negative values. -/
def Sprint (n : Int) : String :=
  match n with
  | Int.ofNat k => Nat.repr k
  | Int.negSucc k => "-" ++ Nat.repr (k + 1)

/-- Go `strings.Join`. -/
def Join : List String → String → String
  | [], _ => ""
  | [a], _ => a
  | a :: b :: rest, sep => a ++ sep ++ Join (b :: rest) sep

/-! ## The renderer state and its directive methods -/

/-- The fields of the Go struct `Style` that the directive methods read and
write.  (The embedded `*template.Template` is carried by `CompiledStyle` below; no
directive method touches it.) -/
structure Style where
  background : Int := DefaultColor
  foreground : Int := DefaultColor
  NoColors : Bool := false
  deriving DecidableEq, Repr

namespace Style

/-- `getStyleCodes(attr...)`: nothing when `NoColors` is set, otherwise
`Sprintf("%s[%sm", CodeStart, strings.Join(attr, ";"))`. -/
def getStyleCodes (style : Style) (attr : List String) : String :=
  if style.NoColors then
    ""
  else
    CodeStart ++ "[" ++ Join attr ";" ++ "m"

/-- `putReset`. -/
def putReset (style : Style) : String × Style :=
  let style := { style with background := DefaultColor }
  let style := { style with foreground := DefaultColor }
  (style.getStyleCodes [AttrReset], style)

/-- `putBackground(color)`. -/
def putBackground (style : Style) (color : Int) : String × Style :=
  let style := { style with background := color }
  (style.getStyleCodes [AttrBackground256, Sprint color], style)

/-- `putDefaultBackground`. -/
def putDefaultBackground (style : Style) : String × Style :=
  let style := { style with background := DefaultColor }
  (style.getStyleCodes [AttrBackground ++ AttrDefault], style)

/-- `putDefaultForeground`. -/
def putDefaultForeground (style : Style) : String × Style :=
  let style := { style with foreground := DefaultColor }
  (style.getStyleCodes [AttrForeground ++ AttrDefault], style)

/-- `putForeground(color)`. -/
def putForeground (style : Style) (color : Int) : String × Style :=
  let style := { style with foreground := color }
  (style.getStyleCodes [AttrForeground256, Sprint color], style)

/-- `putBold`. -/
def putBold (style : Style) : String × Style :=
  (style.getStyleCodes [AttrBold], style)

/-- `putNoBold`. -/
def putNoBold (style : Style) : String × Style :=
  (style.getStyleCodes [AttrNoBold], style)

/-- `putReverse`. -/
def putReverse (style : Style) : String × Style :=
  (style.getStyleCodes [AttrReverse], style)

/-- `putNoReverse`. -/
def putNoReverse (style : Style) : String × Style :=
  (style.getStyleCodes [AttrNoReverse], style)

/-- `putTransitionFrom(text, nextBackground)`.  Go evaluates the operands of the
string concatenation left to right, so the three calls run in the order they
are written. -/
def putTransitionFrom (style : Style) (text : String) (nextBackground : Int) :
    String × Style :=
  let previousBackground := style.background
  let previousForeground := style.foreground
  let (a, style) := style.putForeground previousBackground
  let (b, style) := style.putBackground nextBackground
  let (c, style) := style.putForeground previousForeground
  (a ++ b ++ text ++ c, style)

/-- `putTransitionTo(nextBackground, text)`. -/
def putTransitionTo (style : Style) (nextBackground : Int) (text : String) :
    String × Style :=
  let previousForeground := style.foreground
  let (a, style) := style.putForeground nextBackground
  let (b, style) := style.putBackground nextBackground
  let (c, style) := style.putForeground previousForeground
  (a ++ text ++ b ++ c, style)

end Style


/-! ## The template engine

`Compile` hands the style text to Go's `text/template` with the delimiters
`DelimLeft`, `DelimRight`.  The engine is modelled for the fragment of the
template language that the directives need: literal text, and actions of the
form `LEFT name arg ... arg RIGHT` whose arguments are decimal integer
constants or double-quoted strings without escapes.  On any other input the
parser answers `Outcome.unmodelled`, which says nothing about what Go does. -/

/-- A constant operand of an action. -/
inductive Arg where
  | int (n : Int)
  | str (s : String)
  deriving DecidableEq, Repr

/-- A node of a parsed template: literal text, or a call of a named function
with constant operands. -/
inductive Node where
  | text (s : String)
  | action (name : String) (args : List Arg)
  deriving DecidableEq, Repr

/-- Errors of compilation and execution. -/
inductive Error where
  /-- parse: the input ends inside an action -/
  | unclosedAction
  /-- exec: wrong number or type of arguments in a call of the named function -/
  | badCall (name : String)
  /-- exec: the named function is not in the function table -/
  | notDefined (name : String)
  /-- exec: an error returned by a caller-supplied function -/
  | extension (msg : String)
  deriving DecidableEq, Repr

/-- Result of compilation: a value, an error, or `unmodelled` when the input
leaves the modelled fragment of the template language. -/
inductive Outcome (α : Type) where
  | ok (a : α)
  | error (e : Error)
  | unmodelled
  deriving DecidableEq, Repr

/-- A value of the function table `map[string]interface{}`: one of the eleven
method values of the `Style` object that `Compile` allocates, or a
caller-supplied function (modelled by the text it prints for given operands). -/
inductive Function where
  | putBackground
  | putForeground
  | putDefaultBackground
  | putDefaultForeground
  | putBold
  | putNoBold
  | putReverse
  | putNoReverse
  | putReset
  | putTransitionFrom
  | putTransitionTo
  | extension (f : List Arg → Except Error String)

/-- A function table: name to function. -/
abbrev FuncMap := String → Option Function

/-- The engine calling a function of the table on evaluated operands
(`evalCall`): the number of operands must equal the number of parameters, an
`int` parameter takes an integer constant and a `string` parameter a string
constant.  `style` is the receiver the method values are bound to. -/
def Function.call (fn : Function) (name : String) (args : List Arg) (style : Style) :
    Except Error String × Style :=
  match fn, args with
  | .putBackground, [.int color] =>
      let (out, style) := style.putBackground color; (.ok out, style)
  | .putForeground, [.int color] =>
      let (out, style) := style.putForeground color; (.ok out, style)
  | .putDefaultBackground, [] =>
      let (out, style) := style.putDefaultBackground; (.ok out, style)
  | .putDefaultForeground, [] =>
      let (out, style) := style.putDefaultForeground; (.ok out, style)
  | .putBold, [] => let (out, style) := style.putBold; (.ok out, style)
  | .putNoBold, [] => let (out, style) := style.putNoBold; (.ok out, style)
  | .putReverse, [] => let (out, style) := style.putReverse; (.ok out, style)
  | .putNoReverse, [] => let (out, style) := style.putNoReverse; (.ok out, style)
  | .putReset, [] => let (out, style) := style.putReset; (.ok out, style)
  | .putTransitionFrom, [.str text, .int nextBackground] =>
      let (out, style) := style.putTransitionFrom text nextBackground; (.ok out, style)
  | .putTransitionTo, [.int nextBackground, .str text] =>
      let (out, style) := style.putTransitionTo nextBackground text; (.ok out, style)
  | .extension f, args => (f args, style)
  | _, _ => (.error (.badCall name), style)

/-- Executing a list of nodes left to right (`state.walk`): text is written to
the buffer as it is, an action writes what its function returns, and the first
error stops the walk.  The receiver's state is threaded through the calls and
is returned in every case. -/
def execNodes (funcs : FuncMap) : List Node → Style → String → Except Error String × Style
  | [], style, buffer => (.ok buffer, style)
  | .text s :: rest, style, buffer => execNodes funcs rest style (buffer ++ s)
  | .action name args :: rest, style, buffer =>
      match funcs name with
      | none => (.error (.notDefined name), style)
      | some fn =>
          match fn.call name args style with
          | (.ok out, style) => execNodes funcs rest style (buffer ++ out)
          | (.error e, style) => (.error e, style)

/-- Words the lexer does not treat as function names. -/
def keywords : List String :=
  ["block", "break", "continue", "define", "else", "end", "if", "range", "nil",
   "template", "with", "true", "false"]

/-- Lexer and parser state between two characters of the input. -/
inductive Lex where
  /-- in literal text, `acc` read so far -/
  | text (acc : String)
  /-- just after the left delimiter -/
  | opened
  /-- in the function name -/
  | name (acc : String)
  /-- after a space inside an action -/
  | gap (fn : String) (args : List Arg)
  /-- after the minus sign of an integer constant -/
  | minus (fn : String) (args : List Arg)
  /-- in the digits of an integer constant -/
  | num (fn : String) (args : List Arg) (neg : Bool) (lead0 : Bool) (val : Nat)
  /-- inside a quoted string -/
  | str (fn : String) (args : List Arg) (acc : String)
  /-- just after the closing quote of a string -/
  | quoted (fn : String) (args : List Arg)

/-- The value of a decimal digit character. -/
def digitVal (c : Char) : Nat := c.toNat - '0'.toNat

/-- The value of an integer constant, when it fits Go's 64-bit `int`. -/
def intConst (neg : Bool) (val : Nat) : Option Int :=
  if neg then
    if val ≤ 2 ^ 63 then some (-(val : Int)) else none
  else
    if val < 2 ^ 63 then some (val : Int) else none

/-- The left delimiter as a character. -/
def leftDelim : Char := DelimLeft.get 0

/-- The right delimiter as a character. -/
def rightDelim : Char := DelimRight.get 0

/-- A function name is accepted when it is no keyword and is in the table. -/
def knownName (funcs : FuncMap) (fn : String) : Bool :=
  !keywords.contains fn && (funcs fn).isSome

/-- The nodes with the pending literal text appended, if there is any. -/
def flushText (nodes : List Node) (acc : String) : List Node :=
  if acc = "" then nodes else nodes ++ [.text acc]

/-- Lexing and parsing, one character at a time. -/
def parseFrom (funcs : FuncMap) : Lex → List Node → List Char → Outcome (List Node)
  | .text acc, nodes, [] => .ok (flushText nodes acc)
  | .text acc, nodes, c :: cs =>
      if c = leftDelim then parseFrom funcs .opened (flushText nodes acc) cs
      else parseFrom funcs (.text (acc.push c)) nodes cs
  | .opened, _, [] => .error .unclosedAction
  | .opened, nodes, c :: cs =>
      if c.isAlpha then parseFrom funcs (.name (String.singleton c)) nodes cs
      else .unmodelled
  | .name _, _, [] => .error .unclosedAction
  | .name acc, nodes, c :: cs =>
      if c.isAlpha then parseFrom funcs (.name (acc.push c)) nodes cs
      else if !knownName funcs acc then .unmodelled
      else if c = ' ' then parseFrom funcs (.gap acc []) nodes cs
      else if c = rightDelim then parseFrom funcs (.text "") (nodes ++ [.action acc []]) cs
      else .unmodelled
  | .gap _ _, _, [] => .error .unclosedAction
  | .gap fn args, nodes, c :: cs =>
      if c = ' ' then parseFrom funcs (.gap fn args) nodes cs
      else if c = rightDelim then parseFrom funcs (.text "") (nodes ++ [.action fn args]) cs
      else if c = '-' then parseFrom funcs (.minus fn args) nodes cs
      else if c.isDigit then
        parseFrom funcs (.num fn args false (c = '0') (digitVal c)) nodes cs
      else if c = '"' then parseFrom funcs (.str fn args "") nodes cs
      else .unmodelled
  | .minus _ _, _, [] => .error .unclosedAction
  | .minus fn args, nodes, c :: cs =>
      if c.isDigit then
        parseFrom funcs (.num fn args true (c = '0') (digitVal c)) nodes cs
      else .unmodelled
  | .num _ _ _ _ _, _, [] => .error .unclosedAction
  | .num fn args neg lead0 val, nodes, c :: cs =>
      if c.isDigit then
        if lead0 then .unmodelled
        else parseFrom funcs (.num fn args neg false (val * 10 + digitVal c)) nodes cs
      else
        match intConst neg val with
        | none => .unmodelled
        | some n =>
            if c = ' ' then parseFrom funcs (.gap fn (args ++ [.int n])) nodes cs
            else if c = rightDelim then
              parseFrom funcs (.text "") (nodes ++ [.action fn (args ++ [.int n])]) cs
            else .unmodelled
  | .str _ _ _, _, [] => .error .unclosedAction
  | .str fn args acc, nodes, c :: cs =>
      if c = '"' then parseFrom funcs (.quoted fn (args ++ [.str acc])) nodes cs
      else if c = '\\' || c = '\n' then .unmodelled
      else parseFrom funcs (.str fn args (acc.push c)) nodes cs
  | .quoted _ _, _, [] => .error .unclosedAction
  | .quoted fn args, nodes, c :: cs =>
      if c = ' ' then parseFrom funcs (.gap fn args) nodes cs
      else if c = rightDelim then parseFrom funcs (.text "") (nodes ++ [.action fn args]) cs
      else .unmodelled

/-- `template.New("style").Delims(DelimLeft, DelimRight).Funcs(functions).Parse(text)`. -/
def Parse (funcs : FuncMap) (text : String) : Outcome (List Node) :=
  parseFrom funcs (.text "") [] text.data

/-! ## Compilation and execution -/

/-- The built-in function table of `Compile`. -/
def builtins : FuncMap := fun name =>
  match name with
  | "bg" => some .putBackground
  | "fg" => some .putForeground
  | "nobg" => some .putDefaultBackground
  | "nofg" => some .putDefaultForeground
  | "bold" => some .putBold
  | "nobold" => some .putNoBold
  | "reverse" => some .putReverse
  | "noreverse" => some .putNoReverse
  | "reset" => some .putReset
  | "from" => some .putTransitionFrom
  | "to" => some .putTransitionTo
  | _ => none

/-- The loop `for name, function := range extensions { functions[name] = function }`. -/
def withExtensions (functions extensions : FuncMap) : FuncMap := fun name =>
  match extensions name with
  | some function => some function
  | none => functions name

/-- A nil or empty extension map. -/
def noExtensions : FuncMap := fun _ => none

/-- The value behind the `*Style` that `Compile` returns.

`Compile` allocates two `Style` objects.  The first, `style := &Style{}`, is the
receiver of the eleven method values put into the function table; it is
reachable only through the template and is kept here as `bound`.  The second,
`&Style{Template: template}`, is the one returned; its own fields are `self`.
`tree` and `funcs` are the embedded template. -/
structure CompiledStyle where
  tree : List Node
  funcs : FuncMap
  bound : Style
  self : Style

/-- `Compile(text, extensions)`. -/
def Compile (text : String) (extensions : FuncMap) : Outcome CompiledStyle :=
  let style : Style := {}
  let functions := withExtensions builtins extensions
  match Parse functions text with
  | .error e => .error e
  | .unmodelled => .unmodelled
  | .ok template => .ok { tree := template, funcs := functions, bound := style, self := {} }

/-- `CompileWithReset(text, extensions)`. -/
def CompileWithReset (text : String) (extensions : FuncMap) : Outcome CompiledStyle :=
  Compile (text ++ StyleReset) extensions

/-- Template data, `map[string]interface{}`; the modelled fragment has no
construct that reads it. -/
abbrev Data := String → Option Arg

/-- The assignment `style.NoColors = v` on a compiled style. -/
def CompiledStyle.setNoColors (style : CompiledStyle) (v : Bool) : CompiledStyle :=
  { style with self := { style.self with NoColors := v } }

/-- `ExecuteToString(data)`: the rendered string, or the empty string and the
error; together with the compiled style after the call. -/
def CompiledStyle.ExecuteToString (style : CompiledStyle) (_data : Data) :
    Except Error String × CompiledStyle :=
  match execNodes style.funcs style.tree style.bound "" with
  | (.ok buffer, bound) => (.ok buffer, { style with bound := bound })
  | (.error err, bound) => (.error err, { style with bound := bound })

/-- What the test helper `assertExecutedTemplate` computes with nil data:
`Compile(template, nil)` followed by `ExecuteToString(nil)`. -/
def render (text : String) : Outcome (Except Error String) :=
  match Compile text noExtensions with
  | .ok style => .ok (style.ExecuteToString (fun _ => none)).1
  | .error e => .error e
  | .unmodelled => .unmodelled

/-- An extension map with a single entry: `name` is bound to a function that
prints `out` whatever its operands are. -/
def constExtension (name out : String) : FuncMap := fun n =>
  if n = name then some (.extension fun _ => .ok out) else none

/-! ## Escape stripping -/

/-- The character of `CodeStart`. -/
def codeStart : Char := CodeStart.get 0

/-- The character of `CodeEnd`. -/
def codeEnd : Char := CodeEnd.get 0

/-- Whether a match of `CodeRegexp` begins at the head of the input.  The
pattern is `CodeStart + "[^" + CodeEnd + "]+"`: the character `ESC` followed by
one or more characters other than `m` (a negated class also matches a
newline). -/
def CodeRegexp.matchStarts : List Char → Bool
  | c :: d :: _ => c == codeStart && d != codeEnd
  | _ => false

/-- `CodeRegexp.ReplaceAllLiteralString(input, "")` on the characters of the
input.  Matches are found from left to right, do not overlap, and each is as
long as possible.  `inMatch` says that the head of the input continues a match
that has begun: there every character other than `m` belongs to the match and
is dropped, and the first `m` ends the match and is kept.  Outside a match a
character is dropped only when a match begins at it. -/
def CodeRegexp.replaceAllFrom : Bool → List Char → List Char
  | _, [] => []
  | true, c :: cs =>
      if c = codeEnd then c :: CodeRegexp.replaceAllFrom false cs
      else CodeRegexp.replaceAllFrom true cs
  | false, c :: cs =>
      if CodeRegexp.matchStarts (c :: cs) then CodeRegexp.replaceAllFrom true cs
      else c :: CodeRegexp.replaceAllFrom false cs

/-- TrimStyles removes all escape codes from the given string. -/
def TrimStyles (input : String) : String :=
  ⟨CodeRegexp.replaceAllFrom false input.data⟩

/-! ## Replaying emitted codes

The reading of emitted text that the specification uses to say that text and
state agree: the SGR codes of a text are applied, in order, to a pair
(foreground, background). -/

/-- The number written by one or more decimal digits. -/
def readNat (ds : List Char) : Option Nat :=
  if ds ≠ [] ∧ ds.all Char.isDigit then
    some (ds.foldl (fun v c => v * 10 + digitVal c) 0)
  else none

/-- The integer written by an optional minus sign and decimal digits. -/
def readInt : List Char → Option Int
  | '-' :: ds => (readNat ds).map fun k => -(k : Int)
  | ds => (readNat ds).map fun k => (k : Int)

/-- The effect of one SGR code, given by its parameters, on (foreground,
background): `38;5;N` sets the foreground to N, `48;5;N` the background to N,
`39` and `49` set the foreground and the background to the default 0, `0`
sets both to 0, and every other code, `1`, `22`, `7` and `27` among them,
changes neither. -/
def applySGR (params : List Char) (colours : Int × Int) : Int × Int :=
  match params with
  | ['0'] => (0, 0)
  | ['3', '9'] => (0, colours.2)
  | ['4', '9'] => (colours.1, 0)
  | '3' :: '8' :: ';' :: '5' :: ';' :: n =>
      match readInt n with
      | some k => (k, colours.2)
      | none => colours
  | '4' :: '8' :: ';' :: '5' :: ';' :: n =>
      match readInt n with
      | some k => (colours.1, k)
      | none => colours
  | _ => colours

/-- Where the replay stands in the text. -/
inductive Replay where
  /-- outside a code -/
  | outside
  /-- just after ESC -/
  | escape
  /-- in the parameters of a code, `acc` read so far -/
  | params (acc : List Char)

/-- Replay of the codes of a text from a position: a code is ESC, an opening
square bracket, parameters, and the final `m`. -/
def replayFrom : Replay → List Char → Int × Int → Int × Int
  | _, [], colours => colours
  | .outside, c :: cs, colours =>
      if c = codeStart then replayFrom .escape cs colours
      else replayFrom .outside cs colours
  | .escape, c :: cs, colours =>
      if c = '[' then replayFrom (.params []) cs colours
      else if c = codeStart then replayFrom .escape cs colours
      else replayFrom .outside cs colours
  | .params acc, c :: cs, colours =>
      if c = codeEnd then replayFrom .outside cs (applySGR acc colours)
      else replayFrom (.params (acc ++ [c])) cs colours

/-- Replay of the SGR codes of a text, in order, over (foreground,
background). -/
def replaySGR (text : String) (colours : Int × Int) : Int × Int :=
  replayFrom .outside text.data colours

/-! ## Properties of the directive methods -/

/-- C1: with colours enabled, `from` (putTransitionFrom t n) called in state
(foreground f, background b) returns ESC[38;5;b m, then ESC[48;5;n m, then t,
then ESC[38;5;f m, with b, n and f in decimal; and the style of the test,
`fg 6`, `bg 2`, "finn", `from "" 4`, "jake", renders as the test expects. -/
theorem putTransitionFrom_text (f b n : Int) (t : String) :
    (Style.putTransitionFrom { background := b, foreground := f, NoColors := false } t n).1
        = "\x1b[38;5;" ++ Sprint b ++ "m" ++ "\x1b[48;5;" ++ Sprint n ++ "m" ++ t
            ++ "\x1b[38;5;" ++ Sprint f ++ "m"
    ∧ (Style.putTransitionFrom { background := 2, foreground := 6, NoColors := false } "" 4).1
        = "\x1b[38;5;2m\x1b[48;5;4m\x1b[38;5;6m"
    ∧ render "\x7bfg 6\x7d\x7bbg 2\x7dfinn\x7bfrom \"\" 4\x7djake"
        = .ok (.ok "\x1b[38;5;6m\x1b[48;5;2mfinn\x1b[38;5;2m\x1b[48;5;4m\x1b[38;5;6mjake") := by
  refine ⟨?_, by rfl, by rfl⟩
  simp [Style.putTransitionFrom, Style.putForeground, Style.putBackground,
    Style.getStyleCodes, Join, CodeStart, AttrForeground256, AttrBackground256,
    String.append_assoc]
  rfl

/-- C2: with colours enabled, `to` (putTransitionTo n t) called in state
(foreground f, background b) returns ESC[38;5;n m, then t, then ESC[48;5;n m,
then ESC[38;5;f m; and the style of the test, `fg 6`, `bg 2`, "finn",
`to 4 ""`, "jake", renders as the test expects. -/
theorem putTransitionTo_text (f b n : Int) (t : String) :
    (Style.putTransitionTo { background := b, foreground := f, NoColors := false } n t).1
        = "\x1b[38;5;" ++ Sprint n ++ "m" ++ t ++ "\x1b[48;5;" ++ Sprint n ++ "m"
            ++ "\x1b[38;5;" ++ Sprint f ++ "m"
    ∧ (Style.putTransitionTo { background := 2, foreground := 6, NoColors := false } 4 "").1
        = "\x1b[38;5;4m\x1b[48;5;4m\x1b[38;5;6m"
    ∧ render "\x7bfg 6\x7d\x7bbg 2\x7dfinn\x7bto 4 \"\"\x7djake"
        = .ok (.ok "\x1b[38;5;6m\x1b[48;5;2mfinn\x1b[38;5;4m\x1b[48;5;4m\x1b[38;5;6mjake") := by
  refine ⟨?_, by rfl, by rfl⟩
  simp [Style.putTransitionTo, Style.putForeground, Style.putBackground,
    Style.getStyleCodes, Join, CodeStart, AttrForeground256, AttrBackground256,
    String.append_assoc]
  rfl

/-- C3: for every receiver (colours enabled or not), text and colour n, both
`from` and `to` leave the foreground at its pre-call value and set the
background to n; the `NoColors` flag is untouched. -/
theorem transitions_post_state (style : Style) (t : String) (n : Int) :
    (style.putTransitionFrom t n).2
        = { background := n, foreground := style.foreground, NoColors := style.NoColors }
    ∧ (style.putTransitionTo n t).2
        = { background := n, foreground := style.foreground, NoColors := style.NoColors } := by
  constructor <;> rfl

/-- C4, as stated, fails: from (foreground 6, background 2), `to 4 ""` does not
end with foreground 4 and background 4. -/
theorem putTransitionTo_foreground_counterexample :
    ¬ ((Style.putTransitionTo { background := 2, foreground := 6, NoColors := false } 4 "").2.foreground = 4
      ∧ (Style.putTransitionTo { background := 2, foreground := 6, NoColors := false } 4 "").2.background = 4) := by
  decide

/-- C4, amended: after `to bg2 text` the background is bg2 and the foreground is
the pre-call foreground, so the foreground is bg2 exactly when it was bg2
before the call. -/
theorem putTransitionTo_post_state (style : Style) (bg2 : Int) (text : String) :
    (style.putTransitionTo bg2 text).2.background = bg2
    ∧ (style.putTransitionTo bg2 text).2.foreground = style.foreground
    ∧ ((style.putTransitionTo bg2 text).2.foreground = bg2 ↔ style.foreground = bg2) := by
  refine ⟨rfl, rfl, ?_⟩
  exact Iff.rfl

/-! ## Escape stripping -/

/-- The start character is not the end character. -/
theorem codeEnd_ne_codeStart : codeEnd ≠ codeStart := by decide

/-- No match begins at the end character. -/
theorem CodeRegexp.matchStarts_codeEnd (cs : List Char) :
    CodeRegexp.matchStarts (codeEnd :: cs) = false := by
  cases cs with
  | nil => rfl
  | cons d ds => simp [CodeRegexp.matchStarts, codeEnd_ne_codeStart]

/-- Where no match begins at a character, none begins at it after the rest of
the input has been stripped. -/
theorem CodeRegexp.matchStarts_replaceAllFrom (c : Char) (cs : List Char)
    (h : CodeRegexp.matchStarts (c :: cs) = false) :
    CodeRegexp.matchStarts (c :: CodeRegexp.replaceAllFrom false cs) = false := by
  cases cs with
  | nil => rfl
  | cons d ds =>
    by_cases hd : d = codeEnd
    · subst hd
      simp only [CodeRegexp.replaceAllFrom, CodeRegexp.matchStarts_codeEnd]
      simp [CodeRegexp.matchStarts]
    · have hc : (c == codeStart) = false := by
        simpa [CodeRegexp.matchStarts, hd] using h
      by_cases hm : CodeRegexp.matchStarts (d :: ds) = true
      · simp only [CodeRegexp.replaceAllFrom, hm, if_true]
        cases CodeRegexp.replaceAllFrom true ds with
        | nil => rfl
        | cons e es => simp [CodeRegexp.matchStarts, hc]
      · simp only [CodeRegexp.replaceAllFrom, hm]
        simp [CodeRegexp.matchStarts, hc]

/-- Stripping the result of a strip, begun inside or outside a match, changes
nothing. -/
theorem CodeRegexp.replaceAllFrom_idem (cs : List Char) : ∀ b : Bool,
    CodeRegexp.replaceAllFrom false (CodeRegexp.replaceAllFrom b cs)
      = CodeRegexp.replaceAllFrom b cs := by
  induction cs with
  | nil => intro b; cases b <;> rfl
  | cons c cs ih =>
    intro b
    cases b with
    | true =>
      by_cases hc : c = codeEnd
      · subst hc
        simp [CodeRegexp.replaceAllFrom, CodeRegexp.matchStarts_codeEnd, ih false]
      · simp [CodeRegexp.replaceAllFrom, hc, ih true]
    | false =>
      by_cases hm : CodeRegexp.matchStarts (c :: cs) = true
      · simp [CodeRegexp.replaceAllFrom, hm, ih true]
      · have hm2 : CodeRegexp.matchStarts (c :: cs) = false := by simpa using hm
        have h3 := CodeRegexp.matchStarts_replaceAllFrom c cs hm2
        simp [CodeRegexp.replaceAllFrom, hm2, h3, ih false]

/-- C5 fails on the code: on the input of the repository's own test,
ESC[38;5;1m ESC[48;5;2m "finn", TrimStyles returns "mmfinn", keeping the `m`
that ends each escape code, and not "finn". -/
theorem TrimStyles_keeps_terminator :
    TrimStyles "\x1b[38;5;1m\x1b[48;5;2mfinn" = "mmfinn"
    ∧ TrimStyles "\x1b[38;5;1m\x1b[48;5;2mfinn" ≠ "finn" := by
  decide

/-- C6: TrimStyles is idempotent on every string. -/
theorem TrimStyles_idempotent (s : String) : TrimStyles (TrimStyles s) = TrimStyles s := by
  simp [TrimStyles, CodeRegexp.replaceAllFrom_idem]

/-! ## Parsing integer constants -/

/-- The decimal digit characters: each is a digit, has its own value, and is
`0` only for the value zero. -/
theorem digitChar_spec (m : Nat) (h : m < 10) :
    (Nat.digitChar m).isDigit = true ∧ digitVal (Nat.digitChar m) = m
      ∧ (Nat.digitChar m = '0' ↔ m = 0) := by
  interval_cases m <;> decide

/-- The digits that `Nat.repr` produces: digit characters, no leading zero
except for the number zero, and the number as their decimal value. -/
theorem toDigitsCore_spec : ∀ (fuel n : Nat) (acc : List Char), n < fuel →
    ∃ ds : List Char, Nat.toDigitsCore 10 fuel n acc = ds ++ acc
      ∧ (∀ c ∈ ds, c.isDigit = true)
      ∧ (∃ d tl, ds = d :: tl ∧ (d = '0' → tl = [] ∧ n = 0))
      ∧ (∀ v, ds.foldl (fun v c => v * 10 + digitVal c) v
            = v * 10 ^ ds.length + n) := by
  intro fuel
  induction fuel with
  | zero => intro n acc h; omega
  | succ fuel ih =>
    intro n acc h
    have hd := digitChar_spec (n % 10) (Nat.mod_lt _ (by decide))
    by_cases h0 : n / 10 = 0
    · refine ⟨[Nat.digitChar (n % 10)], ?_, ?_, ?_, ?_⟩
      · simp [Nat.toDigitsCore, h0]
      · simpa using hd.1
      · refine ⟨_, [], rfl, fun hz => ⟨rfl, ?_⟩⟩
        have := hd.2.2.1 hz
        omega
      · intro v
        simp [hd.2.1]
        omega
    · obtain ⟨ds, h1, h2, ⟨d, tl, h3, h4⟩, h5⟩ :=
        ih (n / 10) (Nat.digitChar (n % 10) :: acc) (by omega)
      refine ⟨ds ++ [Nat.digitChar (n % 10)], ?_, ?_, ?_, ?_⟩
      · simp [Nat.toDigitsCore, h0, h1]
      · intro c hc
        rcases List.mem_append.1 hc with hc | hc
        · exact h2 c hc
        · simp at hc; subst hc; exact hd.1
      · refine ⟨d, tl ++ [Nat.digitChar (n % 10)], by simp [h3], fun hz => ?_⟩
        have := (h4 hz).2
        omega
      · intro v
        simp [List.foldl_append, h5, hd.2.1, pow_succ]
        have := Nat.div_add_mod n 10
        ring_nf
        omega

/-- A digit is none of the characters that end or begin something else inside
an action. -/
theorem isDigit_ne (c : Char) (h : c.isDigit = true) :
    c ≠ ' ' ∧ c ≠ rightDelim ∧ c ≠ '-' := by
  refine ⟨?_, ?_, ?_⟩ <;> (rintro rfl; revert h; decide)

/-- Inside an integer constant without a leading zero, digits accumulate the
decimal value. -/
theorem parseFrom_num_digits (funcs : FuncMap) (fn : String) (args : List Arg) (neg : Bool)
    (nodes : List Node) (rest : List Char) :
    ∀ (ds : List Char) (val : Nat), (∀ c ∈ ds, c.isDigit = true) →
      parseFrom funcs (.num fn args neg false val) nodes (ds ++ rest)
        = parseFrom funcs
            (.num fn args neg false (ds.foldl (fun v c => v * 10 + digitVal c) val))
            nodes rest := by
  intro ds
  induction ds with
  | nil => intro val _; rfl
  | cons d ds ih =>
    intro val h
    have hd : d.isDigit = true := h d (List.mem_cons_self _ _)
    have := ih (val * 10 + (digitVal d)) (fun c hc => h c (List.mem_cons_of_mem _ hc))
    simpa [parseFrom, hd] using this

/-- At the right delimiter an integer constant that fits `int` becomes the last
operand of the action. -/
theorem parseFrom_num_close (funcs : FuncMap) (fn : String) (args : List Arg) (neg lead0 : Bool)
    (val : Nat) (n : Int) (nodes : List Node) (rest : List Char)
    (hn : intConst neg val = some n) :
    parseFrom funcs (.num fn args neg lead0 val) nodes (rightDelim :: rest)
      = parseFrom funcs (.text "") (nodes ++ [.action fn (args ++ [.int n])]) rest := by
  have h1 : rightDelim.isDigit = false := by decide
  have h2 : rightDelim ≠ ' ' := by decide
  simp [parseFrom, h1, h2, hn]

/-- The digits of a number, read after the optional sign, give the state
reached by its digits. -/
theorem parseFrom_digits (funcs : FuncMap) (fn : String) (args : List Arg) (neg : Bool)
    (nodes : List Node) (rest : List Char) (k : Nat) :
    ∃ lead0 : Bool,
      (if neg then parseFrom funcs (.minus fn args) nodes (Nat.toDigits 10 k ++ rest)
        else parseFrom funcs (.gap fn args) nodes (Nat.toDigits 10 k ++ rest))
        = parseFrom funcs (.num fn args neg lead0 k) nodes rest := by
  obtain ⟨ds, h1, h2, ⟨d, tl, h3, h4⟩, h5⟩ := toDigitsCore_spec (k + 1) k [] (by omega)
  have hds : Nat.toDigits 10 k = d :: tl := by
    simp [Nat.toDigits, h1, h3]
  have hd : d.isDigit = true := h2 d (by simp [h3])
  have htl : ∀ c ∈ tl, c.isDigit = true := fun c hc => h2 c (by simp [h3, hc])
  obtain ⟨e1, e2, e3⟩ := isDigit_ne d hd
  have hval := h5 0
  rw [h3] at hval
  simp only [List.foldl_cons, Nat.zero_mul, Nat.zero_add] at hval
  by_cases hz : d = '0'
  · obtain ⟨t0, k0⟩ := h4 hz
    subst t0
    subst k0
    subst hz
    refine ⟨true, ?_⟩
    rw [hds]
    have hv : digitVal '0' = 0 := by decide
    cases neg <;> simp [parseFrom, hd, e1, e2, e3, hv]
  · refine ⟨false, ?_⟩
    have key := parseFrom_num_digits funcs fn args neg nodes rest tl (digitVal d) htl
    rw [hval] at key
    rw [hds]
    cases neg <;> simp [parseFrom, hd, hz, e1, e2, e3, key]


/-- The characters of the decimal rendering of an `int`. -/
theorem Sprint_data (n : Int) :
    (Sprint n).data
      = match n with
        | Int.ofNat k => Nat.toDigits 10 k
        | Int.negSucc k => '-' :: Nat.toDigits 10 (k + 1) := by
  cases n with
  | ofNat k => rfl
  | negSucc k => rfl

/-- An integer constant in decimal that fits `int`, followed by the right
delimiter, is read as the last operand of the action. -/
theorem parseFrom_int_close (funcs : FuncMap) (fn : String) (args : List Arg)
    (nodes : List Node) (rest : List Char) (n : Int)
    (hn : -2 ^ 63 ≤ n ∧ n < 2 ^ 63) :
    parseFrom funcs (.gap fn args) nodes ((Sprint n).data ++ rightDelim :: rest)
      = parseFrom funcs (.text "") (nodes ++ [.action fn (args ++ [.int n])]) rest := by
  rw [Sprint_data]
  cases n with
  | ofNat k =>
    obtain ⟨lead0, h⟩ := parseFrom_digits funcs fn args false nodes (rightDelim :: rest) k
    simp only [Bool.false_eq_true, if_false] at h
    rw [h]
    apply parseFrom_num_close
    have hk : k < 9223372036854775808 := by
      have := hn.2
      simp only [Int.ofNat_eq_coe] at this
      omega
    simp [intConst, hk]
  | negSucc k =>
    obtain ⟨lead0, h⟩ := parseFrom_digits funcs fn args true nodes (rightDelim :: rest) (k + 1)
    simp only [if_true] at h
    have h1 : ('-' : Char) ≠ ' ' := by decide
    have h2 : ('-' : Char) ≠ rightDelim := by decide
    simp only [List.cons_append, parseFrom, h1, h2, if_false, if_true]
    change parseFrom funcs (.minus fn args) nodes (Nat.toDigits 10 (k + 1) ++ rightDelim :: rest)
      = _
    rw [h]
    apply parseFrom_num_close
    have hk : k + 1 ≤ 9223372036854775808 := by
      have := hn.1
      rw [Int.negSucc_eq] at this
      omega
    simp [intConst, hk, Int.negSucc_eq]

/-- Text without the left delimiter is read to the end as literal text. -/
theorem parseFrom_text (funcs : FuncMap) (nodes : List Node) :
    ∀ (cs : List Char) (acc : String), leftDelim ∉ cs →
      parseFrom funcs (.text acc) nodes cs = .ok (flushText nodes (acc ++ ⟨cs⟩)) := by
  intro cs
  induction cs with
  | nil => intro acc _; simp [parseFrom]
  | cons c cs ih =>
    intro acc h
    have hc : c ≠ leftDelim := fun e => h (by simp [e])
    have hcs : leftDelim ∉ cs := fun e => h (by simp [e])
    simp only [parseFrom, hc, if_false]
    rw [ih _ hcs]
    congr 2
    apply String.ext
    simp [String.push]


/-- The style text `fg c`, `bg d` in delimiters followed by text without a left
delimiter parses to the two actions and the text. -/
theorem Parse_fg_bg_text (c d : Int) (t : String)
    (hc : -2 ^ 63 ≤ c ∧ c < 2 ^ 63) (hd : -2 ^ 63 ≤ d ∧ d < 2 ^ 63)
    (ht : leftDelim ∉ t.data) :
    Parse (withExtensions builtins noExtensions)
        ("\x7bfg " ++ Sprint c ++ "\x7d\x7bbg " ++ Sprint d ++ "\x7d" ++ t)
      = .ok (flushText [.action "fg" [.int c], .action "bg" [.int d]] t) := by
  have e : ("\x7bfg " ++ Sprint c ++ "\x7d\x7bbg " ++ Sprint d ++ "\x7d" ++ t).data
      = leftDelim :: 'f' :: 'g' :: ' ' :: ((Sprint c).data ++ rightDelim ::
          (leftDelim :: 'b' :: 'g' :: ' ' :: ((Sprint d).data ++ rightDelim :: t.data))) := by
    simp [String.data_append]
    decide
  have k1 : knownName (withExtensions builtins noExtensions) "fg" = true := by decide
  have k2 : knownName (withExtensions builtins noExtensions) "bg" = true := by decide
  have s1 : (String.singleton 'f').push 'g' = "fg" := by decide
  have s2 : (String.singleton 'b').push 'g' = "bg" := by decide
  have a1 : ('f' : Char).isAlpha = true := by decide
  have a2 : ('g' : Char).isAlpha = true := by decide
  have a3 : ('b' : Char).isAlpha = true := by decide
  have a4 : (' ' : Char).isAlpha = false := by decide
  unfold Parse
  rw [e]
  simp only [parseFrom, if_true, a1, a2, a3, a4, s1, s2, k1, k2, Bool.not_true,
    Bool.false_eq_true, if_false, flushText]
  rw [parseFrom_int_close _ _ _ _ _ _ hc]
  simp only [parseFrom, if_true, a1, a2, a3, a4, s1, s2, k1, k2, Bool.not_true,
    Bool.false_eq_true, if_false, flushText]
  rw [parseFrom_int_close _ _ _ _ _ _ hd, parseFrom_text _ _ _ _ ht]
  simp [flushText]

/-! ## Compiled styles -/

/-- C7 fails on the code: the style compiled from `bg 2` followed by "finn",
with `NoColors` then set to true on the returned value, still renders
ESC[48;5;2m before "finn"; the flag read by the directives is the one of the
object bound into the template, which stays false. -/
theorem NoColors_not_seen_by_directives :
    ∃ style : CompiledStyle,
      Compile "\x7bbg 2\x7dfinn" noExtensions = .ok style
      ∧ (style.setNoColors true).self.NoColors = true
      ∧ (style.setNoColors true).bound.NoColors = false
      ∧ ((style.setNoColors true).ExecuteToString (fun _ => none)).1
          = .ok "\x1b[48;5;2mfinn" :=
  ⟨_, rfl, rfl, rfl, by rfl⟩

/-- C8: with colours enabled and in every prior state, `fg c` returns
ESC[38;5;c m and `bg d` returns ESC[48;5;d m; a compiled style whose template
is `fg c`, `bg d`, then literal text t renders as the two codes followed by t,
from every state of the bound receiver; for c and d in the range of `int` and t
without a left delimiter, the style text made of `fg c` and `bg d` in
delimiters followed by t compiles and renders so; and the style text `fg 1`,
`bg 2`, "finn" of the test renders as the test expects. -/
theorem fg_bg_text (c d f b : Int) (t : String) (data : Data) :
    (Style.putForeground { background := b, foreground := f, NoColors := false } c).1
        = "\x1b[38;5;" ++ Sprint c ++ "m"
    ∧ (Style.putBackground { background := b, foreground := f, NoColors := false } d).1
        = "\x1b[48;5;" ++ Sprint d ++ "m"
    ∧ (CompiledStyle.ExecuteToString
          { tree := [.action "fg" [.int c], .action "bg" [.int d], .text t],
            funcs := withExtensions builtins noExtensions,
            bound := { background := b, foreground := f, NoColors := false },
            self := {} } data).1
        = .ok ("\x1b[38;5;" ++ Sprint c ++ "m" ++ "\x1b[48;5;" ++ Sprint d ++ "m" ++ t)
    ∧ (-2 ^ 63 ≤ c ∧ c < 2 ^ 63 → -2 ^ 63 ≤ d ∧ d < 2 ^ 63 → leftDelim ∉ t.data →
        ∃ style : CompiledStyle,
          Compile ("\x7bfg " ++ Sprint c ++ "\x7d\x7bbg " ++ Sprint d ++ "\x7d" ++ t) noExtensions
            = .ok style
          ∧ (style.ExecuteToString data).1
            = .ok ("\x1b[38;5;" ++ Sprint c ++ "m" ++ "\x1b[48;5;" ++ Sprint d ++ "m" ++ t))
    ∧ render "\x7bfg 1\x7d\x7bbg 2\x7dfinn" = .ok (.ok "\x1b[38;5;1m\x1b[48;5;2mfinn") := by
  refine ⟨?_, ?_, ?_, ?_, by rfl⟩
  · simp [Style.putForeground, Style.getStyleCodes, Join, CodeStart, AttrForeground256,
      String.append_assoc]
    rfl
  · simp [Style.putBackground, Style.getStyleCodes, Join, CodeStart, AttrBackground256,
      String.append_assoc]
    rfl
  · simp [CompiledStyle.ExecuteToString, execNodes, withExtensions, noExtensions, builtins,
      Function.call, Style.putForeground, Style.putBackground, Style.getStyleCodes, Join,
      CodeStart, AttrForeground256, AttrBackground256, String.append_assoc]
    rfl
  · intro hc hd ht
    simp only [Compile, Parse_fg_bg_text c d t hc hd ht]
    refine ⟨_, rfl, ?_⟩
    by_cases h : t = ""
    · subst h
      simp [flushText, CompiledStyle.ExecuteToString, execNodes, withExtensions, noExtensions,
        builtins, Function.call, Style.putForeground, Style.putBackground,
        Style.getStyleCodes, Join, CodeStart, AttrForeground256, AttrBackground256,
        String.append_assoc]
      rfl
    · simp [flushText, h, CompiledStyle.ExecuteToString, execNodes, withExtensions,
        noExtensions, builtins, Function.call, Style.putForeground, Style.putBackground,
        Style.getStyleCodes, Join, CodeStart, AttrForeground256, AttrBackground256,
        String.append_assoc]
      rfl

/-- C8 at c = 1, d = 2, t = "finn": the hypotheses hold and the style text
compiles and renders the two codes followed by "finn". -/
theorem fg_bg_text_witness :
    ∃ style : CompiledStyle,
      Compile ("\x7bfg " ++ Sprint 1 ++ "\x7d\x7bbg " ++ Sprint 2 ++ "\x7d" ++ "finn") noExtensions
        = .ok style
      ∧ (style.ExecuteToString (fun _ => none)).1
        = .ok ("\x1b[38;5;" ++ Sprint 1 ++ "m" ++ "\x1b[48;5;" ++ Sprint 2 ++ "m" ++ "finn") :=
  (fg_bg_text 1 2 0 0 "finn" (fun _ => none)).2.2.2.1 (by decide) (by decide) (by decide)

/-- C9: with colours enabled and in every prior state, `reset` returns ESC[0m
and leaves foreground and background at DefaultColor, which is 0. -/
theorem putReset_text_state (f b : Int) :
    (Style.putReset { background := b, foreground := f, NoColors := false }).1 = "\x1b[0m"
    ∧ (Style.putReset { background := b, foreground := f, NoColors := false }).2.foreground
        = DefaultColor
    ∧ (Style.putReset { background := b, foreground := f, NoColors := false }).2.background
        = DefaultColor
    ∧ DefaultColor = 0 := by
  refine ⟨by rfl, rfl, rfl, rfl⟩

/-- C10: with colours enabled and in every prior state (foreground f,
background b), `nofg` returns ESC[39m, `nobg` ESC[49m, `bold` ESC[1m,
`nobold` ESC[22m, `reverse` ESC[7m and `noreverse` ESC[27m. -/
theorem attribute_directives_text (f b : Int) :
    (Style.putDefaultForeground { background := b, foreground := f, NoColors := false }).1
        = "\x1b[39m"
    ∧ (Style.putDefaultBackground { background := b, foreground := f, NoColors := false }).1
        = "\x1b[49m"
    ∧ (Style.putBold { background := b, foreground := f, NoColors := false }).1 = "\x1b[1m"
    ∧ (Style.putNoBold { background := b, foreground := f, NoColors := false }).1 = "\x1b[22m"
    ∧ (Style.putReverse { background := b, foreground := f, NoColors := false }).1 = "\x1b[7m"
    ∧ (Style.putNoReverse { background := b, foreground := f, NoColors := false }).1
        = "\x1b[27m" := by
  refine ⟨by rfl, by rfl, by rfl, by rfl, by rfl, by rfl⟩

/-! ## Frame properties of the directive methods -/

/-- Every call of a method value of the table leaves the `NoColors` flag of
the receiver as it was. -/
theorem Function.call_NoColors (fn : Function) (name : String) (args : List Arg)
    (style : Style) : (fn.call name args style).2.NoColors = style.NoColors := by
  unfold Function.call
  split <;> rfl

/-- C15: for every receiver (foreground f, background b) and colour c, `fg c`
yields (c, b), `nofg` (0, b), `bg c` (f, c), `nobg` (f, 0); `bold`, `nobold`,
`reverse`, `noreverse` leave (f, b); `reset` yields (0, 0).  Reset is the only
function of the built-in table that can change both fields in one call: every
other one, on any operands, leaves the foreground or the background as it
was, while `reset` from (1, 1) changes both. -/
theorem simple_directives_frame (style : Style) (c : Int) :
    (style.putForeground c).2 = { style with foreground := c }
    ∧ (style.putDefaultForeground).2 = { style with foreground := 0 }
    ∧ (style.putBackground c).2 = { style with background := c }
    ∧ (style.putDefaultBackground).2 = { style with background := 0 }
    ∧ (style.putBold).2 = style
    ∧ (style.putNoBold).2 = style
    ∧ (style.putReverse).2 = style
    ∧ (style.putNoReverse).2 = style
    ∧ (style.putReset).2 = { style with foreground := 0, background := 0 }
    ∧ (∀ (name : String) (fn : Function) (args : List Arg),
        builtins name = some fn → name ≠ "reset" →
          (fn.call name args style).2.foreground = style.foreground
          ∨ (fn.call name args style).2.background = style.background)
    ∧ ((Style.putReset { background := 1, foreground := 1, NoColors := false }).2.foreground ≠ 1
        ∧ (Style.putReset { background := 1, foreground := 1, NoColors := false }).2.background
            ≠ 1) := by
  refine ⟨rfl, rfl, rfl, rfl, rfl, rfl, rfl, rfl, rfl, ?_, by decide⟩
  intro name fn args hfn hname
  unfold builtins at hfn
  split at hfn
  all_goals first
    | exact absurd rfl hname
    | cases hfn
  all_goals
    unfold Function.call
    split <;> simp_all [Style.putForeground, Style.putBackground, Style.putDefaultBackground,
      Style.putDefaultForeground, Style.putBold, Style.putNoBold, Style.putReverse,
      Style.putNoReverse, Style.putTransitionFrom, Style.putTransitionTo]

/-- C17: on a receiver whose `NoColors` flag is true, `fg`, `bg`, `nofg`,
`nobg`, `bold`, `nobold`, `reverse`, `noreverse` and `reset` return the empty
string, `from` and `to` return their text argument, and each leaves the
foreground and background that it leaves from the same state with `NoColors`
false. -/
theorem NoColors_methods (f b c : Int) (t : String) :
    Style.putForeground { background := b, foreground := f, NoColors := true } c
        = ("", { (Style.putForeground { background := b, foreground := f, NoColors := false } c).2
                  with NoColors := true })
    ∧ Style.putBackground { background := b, foreground := f, NoColors := true } c
        = ("", { (Style.putBackground { background := b, foreground := f, NoColors := false } c).2
                  with NoColors := true })
    ∧ Style.putDefaultForeground { background := b, foreground := f, NoColors := true }
        = ("", { (Style.putDefaultForeground
                    { background := b, foreground := f, NoColors := false }).2
                  with NoColors := true })
    ∧ Style.putDefaultBackground { background := b, foreground := f, NoColors := true }
        = ("", { (Style.putDefaultBackground
                    { background := b, foreground := f, NoColors := false }).2
                  with NoColors := true })
    ∧ Style.putBold { background := b, foreground := f, NoColors := true }
        = ("", { (Style.putBold { background := b, foreground := f, NoColors := false }).2
                  with NoColors := true })
    ∧ Style.putNoBold { background := b, foreground := f, NoColors := true }
        = ("", { (Style.putNoBold { background := b, foreground := f, NoColors := false }).2
                  with NoColors := true })
    ∧ Style.putReverse { background := b, foreground := f, NoColors := true }
        = ("", { (Style.putReverse { background := b, foreground := f, NoColors := false }).2
                  with NoColors := true })
    ∧ Style.putNoReverse { background := b, foreground := f, NoColors := true }
        = ("", { (Style.putNoReverse { background := b, foreground := f, NoColors := false }).2
                  with NoColors := true })
    ∧ Style.putReset { background := b, foreground := f, NoColors := true }
        = ("", { (Style.putReset { background := b, foreground := f, NoColors := false }).2
                  with NoColors := true })
    ∧ Style.putTransitionFrom { background := b, foreground := f, NoColors := true } t c
        = (t, { (Style.putTransitionFrom
                    { background := b, foreground := f, NoColors := false } t c).2
                  with NoColors := true })
    ∧ Style.putTransitionTo { background := b, foreground := f, NoColors := true } c t
        = (t, { (Style.putTransitionTo
                    { background := b, foreground := f, NoColors := false } c t).2
                  with NoColors := true }) := by
  refine ⟨rfl, rfl, rfl, rfl, rfl, rfl, rfl, rfl, rfl, ?_, ?_⟩
  · simp [Style.putTransitionFrom, Style.putForeground, Style.putBackground,
      Style.getStyleCodes]
  · simp [Style.putTransitionTo, Style.putForeground, Style.putBackground,
      Style.getStyleCodes]

/-- C18: in every state `fg 0` and `nofg` leave the same state, and so do
`bg 0` and `nobg`, so any later nodes render the same after either; `from`
called with the default background emits ESC[38;5;0m first, and `from` and `to`
called with the default foreground end with ESC[38;5;0m. -/
theorem default_is_colour_zero (style : Style) (f b n : Int) (t : String) (funcs : FuncMap)
    (nodes : List Node) (buffer : String) :
    (style.putForeground 0).2 = (style.putDefaultForeground).2
    ∧ (style.putBackground 0).2 = (style.putDefaultBackground).2
    ∧ execNodes funcs nodes (style.putForeground 0).2 buffer
        = execNodes funcs nodes (style.putDefaultForeground).2 buffer
    ∧ execNodes funcs nodes (style.putBackground 0).2 buffer
        = execNodes funcs nodes (style.putDefaultBackground).2 buffer
    ∧ (Style.putTransitionFrom
          { background := DefaultColor, foreground := f, NoColors := false } t n).1
        = "\x1b[38;5;0m" ++ "\x1b[48;5;" ++ Sprint n ++ "m" ++ t
            ++ "\x1b[38;5;" ++ Sprint f ++ "m"
    ∧ (Style.putTransitionFrom
          { background := b, foreground := DefaultColor, NoColors := false } t n).1
        = "\x1b[38;5;" ++ Sprint b ++ "m" ++ "\x1b[48;5;" ++ Sprint n ++ "m" ++ t
            ++ "\x1b[38;5;0m"
    ∧ (Style.putTransitionTo
          { background := b, foreground := DefaultColor, NoColors := false } n t).1
        = "\x1b[38;5;" ++ Sprint n ++ "m" ++ t ++ "\x1b[48;5;" ++ Sprint n ++ "m"
            ++ "\x1b[38;5;0m" := by
  refine ⟨rfl, rfl, rfl, rfl, ?_, ?_, ?_⟩
  · simp [Style.putTransitionFrom, Style.putForeground, Style.putBackground,
      Style.getStyleCodes, Join, CodeStart, AttrForeground256, AttrBackground256,
      String.append_assoc, DefaultColor]
    rfl
  · simp [Style.putTransitionFrom, Style.putForeground, Style.putBackground,
      Style.getStyleCodes, Join, CodeStart, AttrForeground256, AttrBackground256,
      String.append_assoc, DefaultColor]
    rfl
  · simp [Style.putTransitionTo, Style.putForeground, Style.putBackground,
      Style.getStyleCodes, Join, CodeStart, AttrForeground256, AttrBackground256,
      String.append_assoc, DefaultColor]
    rfl

/-! ## More on escape stripping -/

/-- A match begins only at the start character. -/
theorem CodeRegexp.matchStarts_head (c : Char) (cs : List Char)
    (h : CodeRegexp.matchStarts (c :: cs) = true) : c = codeStart := by
  cases cs with
  | nil => simp [CodeRegexp.matchStarts] at h
  | cons d ds =>
    simp only [CodeRegexp.matchStarts, Bool.and_eq_true, beq_iff_eq] at h
    exact h.1

/-- Stripping keeps the number of end characters, inside and outside a match. -/
theorem CodeRegexp.count_codeEnd (cs : List Char) : ∀ b : Bool,
    (CodeRegexp.replaceAllFrom b cs).count codeEnd = cs.count codeEnd := by
  induction cs with
  | nil => intro b; cases b <;> rfl
  | cons c cs ih =>
    intro b
    cases b with
    | true =>
      by_cases hc : c = codeEnd
      · subst hc
        simp [CodeRegexp.replaceAllFrom, ih false]
      · simp [CodeRegexp.replaceAllFrom, hc, ih true, List.count_cons]
    | false =>
      by_cases hm : CodeRegexp.matchStarts (c :: cs) = true
      · have hc : c ≠ codeEnd := by
          rw [CodeRegexp.matchStarts_head c cs hm]
          exact fun e => codeEnd_ne_codeStart e.symm
        simp [CodeRegexp.replaceAllFrom, hm, ih true, List.count_cons, hc]
      · have hm2 : CodeRegexp.matchStarts (c :: cs) = false := by simpa using hm
        simp [CodeRegexp.replaceAllFrom, hm2, ih false, List.count_cons]

/-- Text without the start character is kept as it is, and stripping goes on
after it. -/
theorem CodeRegexp.replaceAllFrom_plain (rest : List Char) :
    ∀ p : List Char, codeStart ∉ p →
      CodeRegexp.replaceAllFrom false (p ++ rest) = p ++ CodeRegexp.replaceAllFrom false rest := by
  intro p
  induction p with
  | nil => intro _; rfl
  | cons c p ih =>
    intro h
    have hc : c ≠ codeStart := fun e => h (by simp [e])
    have hp : codeStart ∉ p := fun e => h (by simp [e])
    have hm : CodeRegexp.matchStarts (c :: (p ++ rest)) = false := by
      cases hq : CodeRegexp.matchStarts (c :: (p ++ rest)) with
      | false => rfl
      | true => exact absurd (CodeRegexp.matchStarts_head c _ hq) hc
    simp [CodeRegexp.replaceAllFrom, hm, ih hp]

/-- Inside a match, input without the end character is dropped whole. -/
theorem CodeRegexp.replaceAllFrom_swallow :
    ∀ r : List Char, codeEnd ∉ r → CodeRegexp.replaceAllFrom true r = [] := by
  intro r
  induction r with
  | nil => intro _; rfl
  | cons c r ih =>
    intro h
    have hc : c ≠ codeEnd := fun e => h (by simp [e])
    have hr : codeEnd ∉ r := fun e => h (by simp [e])
    simp [CodeRegexp.replaceAllFrom, hc, ih hr]

/-- C19: for every input, TrimStyles returns a string with as many `m`
characters as the input has. -/
theorem TrimStyles_keeps_every_m (input : String) :
    (TrimStyles input).data.count 'm' = input.data.count 'm' := by
  have h := CodeRegexp.count_codeEnd input.data false
  simpa [TrimStyles] using h

/-- C20: for p without ESC and non-empty r without `m`, TrimStyles of p, ESC,
r is p; for p without ESC, the ESC that ends the input p, ESC is kept, and the
ESC followed by `m` in p, ESC, `m`, q is kept together with the `m`, the rest q
being stripped on its own; for instance everything after the ESC of
"ab", ESC, "[1", newline, ESC, "xyz" goes, newline and second ESC included. -/
theorem TrimStyles_unterminated (p r q : String) :
    (codeStart ∉ p.data → r ≠ "" → codeEnd ∉ r.data → TrimStyles (p ++ "\x1b" ++ r) = p)
    ∧ (codeStart ∉ p.data → TrimStyles (p ++ "\x1b") = p ++ "\x1b")
    ∧ (codeStart ∉ p.data →
        TrimStyles (p ++ "\x1b" ++ "m" ++ q) = p ++ "\x1b" ++ "m" ++ TrimStyles q)
    ∧ TrimStyles "ab\x1b[1\n\x1bxyz" = "ab" := by
  refine ⟨?_, ?_, ?_, by decide⟩
  · intro hp hr hm
    apply String.ext
    have e : (p ++ "\x1b" ++ r).data = p.data ++ (codeStart :: r.data) := by
      simp [String.data_append]
      rfl
    simp only [TrimStyles, e, CodeRegexp.replaceAllFrom_plain _ _ hp]
    cases hd : r.data with
    | nil => exact absurd (String.ext hd) hr
    | cons d ds =>
      have hd2 : d ≠ codeEnd := fun e2 => hm (by simp [hd, e2])
      have hds : codeEnd ∉ d :: ds := by rw [← hd]; exact hm
      have hs := CodeRegexp.replaceAllFrom_swallow (d :: ds) hds
      have h1 : CodeRegexp.matchStarts (codeStart :: d :: ds) = true := by
        simp [CodeRegexp.matchStarts, hd2]
      have h2 : CodeRegexp.replaceAllFrom false (codeStart :: d :: ds)
          = CodeRegexp.replaceAllFrom true (d :: ds) := by
        simp only [CodeRegexp.replaceAllFrom, h1, if_true]
      rw [h2, hs, List.append_nil]
  · intro hp
    apply String.ext
    have e : (p ++ "\x1b").data = p.data ++ [codeStart] := by
      simp [String.data_append]
      rfl
    simp only [TrimStyles, e, CodeRegexp.replaceAllFrom_plain _ _ hp]
    simp [CodeRegexp.replaceAllFrom, CodeRegexp.matchStarts, String.data_append]
  · intro hp
    apply String.ext
    have e : (p ++ "\x1b" ++ "m" ++ q).data = p.data ++ (codeStart :: codeEnd :: q.data) := by
      simp [String.data_append]
      decide
    simp only [TrimStyles, e, CodeRegexp.replaceAllFrom_plain _ _ hp]
    have h1 : CodeRegexp.matchStarts (codeStart :: codeEnd :: q.data) = false := by
      simp [CodeRegexp.matchStarts]
    simp [CodeRegexp.replaceAllFrom, h1, CodeRegexp.matchStarts_codeEnd, String.data_append]
    decide

/-- C20 at p = "ab", r = "[1": the hypotheses hold and the result is "ab". -/
theorem TrimStyles_unterminated_witness : TrimStyles ("ab" ++ "\x1b" ++ "[1") = "ab" :=
  (TrimStyles_unterminated "ab" "[1" "").1 (by decide) (by decide) (by decide)

/-! ## Executions of a compiled style -/

/-- What one `ExecuteToString` returns and leaves behind: the rendering of the
tree from the bound receiver, the receiver after the walk, and the same tree
and table. -/
theorem CompiledStyle.ExecuteToString_eq (style : CompiledStyle) (data : Data) :
    (style.ExecuteToString data).1 = (execNodes style.funcs style.tree style.bound "").1
    ∧ (style.ExecuteToString data).2.bound
        = (execNodes style.funcs style.tree style.bound "").2
    ∧ (style.ExecuteToString data).2.tree = style.tree
    ∧ (style.ExecuteToString data).2.funcs = style.funcs
    ∧ (style.ExecuteToString data).2.self = style.self := by
  unfold CompiledStyle.ExecuteToString
  split <;> simp_all

/-- A compiled style has the parse of its text as tree, the merged table as
functions, and a receiver in the default state with colours enabled. -/
theorem Compile_ok (text : String) (extensions : FuncMap) (style : CompiledStyle)
    (h : Compile text extensions = .ok style) :
    Parse (withExtensions builtins extensions) text = .ok style.tree
    ∧ style.funcs = withExtensions builtins extensions
    ∧ style.bound = { background := 0, foreground := 0, NoColors := false }
    ∧ style.self = { background := 0, foreground := 0, NoColors := false } := by
  simp only [Compile] at h
  cases htree : Parse (withExtensions builtins extensions) text with
  | error e => rw [htree] at h; cases h
  | unmodelled => rw [htree] at h; cases h
  | ok tree =>
    rw [htree] at h
    cases h
    exact ⟨rfl, rfl, rfl, rfl⟩

/-- C12: a compiled style starts in state (0, 0); its first execution renders
its tree from (0, 0) and leaves the state reached by that rendering; its second
execution renders the same tree from that state.  The style compiled from
`from "" 4` renders ESC[38;5;0m ESC[48;5;4m ESC[38;5;0m the first time and
ESC[38;5;4m ESC[48;5;4m ESC[38;5;0m the second time. -/
theorem state_persists (text : String) (extensions : FuncMap) (style : CompiledStyle)
    (data data2 : Data) (h : Compile text extensions = .ok style) :
    style.bound = { background := 0, foreground := 0, NoColors := false }
    ∧ (style.ExecuteToString data).1
        = (execNodes style.funcs style.tree
            { background := 0, foreground := 0, NoColors := false } "").1
    ∧ (style.ExecuteToString data).2.bound
        = (execNodes style.funcs style.tree
            { background := 0, foreground := 0, NoColors := false } "").2
    ∧ ((style.ExecuteToString data).2.ExecuteToString data2).1
        = (execNodes style.funcs style.tree
            (execNodes style.funcs style.tree
              { background := 0, foreground := 0, NoColors := false } "").2 "").1
    ∧ (∃ st : CompiledStyle,
        Compile "\x7bfrom \"\" 4\x7d" noExtensions = .ok st
        ∧ (st.ExecuteToString data).1 = .ok "\x1b[38;5;0m\x1b[48;5;4m\x1b[38;5;0m"
        ∧ ((st.ExecuteToString data).2.ExecuteToString data2).1
            = .ok "\x1b[38;5;4m\x1b[48;5;4m\x1b[38;5;0m") := by
  obtain ⟨_, _, hb, _⟩ := Compile_ok text extensions style h
  obtain ⟨e1, e2, e3, e4, _⟩ := CompiledStyle.ExecuteToString_eq style data
  obtain ⟨g1, _, _, _, _⟩ :=
    CompiledStyle.ExecuteToString_eq (style.ExecuteToString data).2 data2
  refine ⟨hb, ?_, ?_, ?_, ⟨_, rfl, by rfl, by rfl⟩⟩
  · rw [e1, hb]
  · rw [e2, hb]
  · rw [g1, e2, e3, e4, hb]

/-- C12 at the style text `from "" 4`: it compiles, and the two executions
render from (0, 0) and from the state left by the first. -/
theorem state_persists_witness :
    ∃ st : CompiledStyle,
      Compile "\x7bfrom \"\" 4\x7d" noExtensions = .ok st
      ∧ ((st.ExecuteToString (fun _ => none)).2.ExecuteToString (fun _ => none)).1
          = (execNodes st.funcs st.tree
              (execNodes st.funcs st.tree
                { background := 0, foreground := 0, NoColors := false } "").2 "").1 :=
  ⟨_, rfl, (state_persists "\x7bfrom \"\" 4\x7d" noExtensions _ (fun _ => none)
    (fun _ => none) rfl).2.2.2.1⟩

/-- C13: the table that `Compile` parses with and keeps maps every name of
the extension map to the extension's value, also the names of built-ins, and
every other name to what the built-in table gives, which is the eleven
directives for `bg`, `fg`, `nobg`, `nofg`, `bold`, `nobold`, `reverse`,
`noreverse`, `reset`, `from`, `to`.  With `bold` redefined to print "B", the
style `bold`, "x", `fg 1` renders "B", "x", ESC[38;5;1m. -/
theorem extensions_override (extensions : FuncMap) (text : String) :
    (∀ name fn, extensions name = some fn →
        withExtensions builtins extensions name = some fn)
    ∧ (∀ name, extensions name = none →
        withExtensions builtins extensions name = builtins name)
    ∧ (builtins "bg" = some .putBackground ∧ builtins "fg" = some .putForeground
        ∧ builtins "nobg" = some .putDefaultBackground
        ∧ builtins "nofg" = some .putDefaultForeground
        ∧ builtins "bold" = some .putBold ∧ builtins "nobold" = some .putNoBold
        ∧ builtins "reverse" = some .putReverse ∧ builtins "noreverse" = some .putNoReverse
        ∧ builtins "reset" = some .putReset ∧ builtins "from" = some .putTransitionFrom
        ∧ builtins "to" = some .putTransitionTo)
    ∧ (∀ style, Compile text extensions = .ok style →
        Parse (withExtensions builtins extensions) text = .ok style.tree
        ∧ style.funcs = withExtensions builtins extensions)
    ∧ (∃ st : CompiledStyle,
        Compile "\x7bbold\x7dx\x7bfg 1\x7d" (constExtension "bold" "B") = .ok st
        ∧ (st.ExecuteToString (fun _ => none)).1 = .ok "Bx\x1b[38;5;1m") := by
  refine ⟨?_, ?_, ⟨rfl, rfl, rfl, rfl, rfl, rfl, rfl, rfl, rfl, rfl, rfl⟩, ?_, ⟨_, rfl, by rfl⟩⟩
  · intro name fn h
    simp [withExtensions, h]
  · intro name h
    simp [withExtensions, h]
  · intro style h
    obtain ⟨h1, h2, _, _⟩ := Compile_ok text extensions style h
    exact ⟨h1, h2⟩

/-- C13 at the extension map that redefines `bold`: the merged table gives the
extension for `bold`, and the built-in for `fg`, which the map does not
name. -/
theorem extensions_override_witness :
    (∃ fn, withExtensions builtins (constExtension "bold" "B") "bold" = some fn
        ∧ constExtension "bold" "B" "bold" = some fn)
    ∧ withExtensions builtins (constExtension "bold" "B") "fg" = builtins "fg" :=
  ⟨⟨_, (extensions_override (constExtension "bold" "B") "").1 "bold" _ rfl, rfl⟩,
   (extensions_override (constExtension "bold" "B") "").2.1 "fg" rfl⟩

/-- C14: a text without the left delimiter compiles, with any extension map,
and renders as itself with any data; so do the empty text and "root beer" of
the tests. -/
theorem plain_text_round_trip (t : String) (extensions : FuncMap) (data : Data) :
    (leftDelim ∉ t.data →
      ∃ style : CompiledStyle,
        Compile t extensions = .ok style ∧ (style.ExecuteToString data).1 = .ok t)
    ∧ render "" = .ok (.ok "")
    ∧ render "root beer" = .ok (.ok "root beer") := by
  refine ⟨?_, by rfl, by rfl⟩
  intro ht
  have hp : Parse (withExtensions builtins extensions) t = .ok (flushText [] t) := by
    unfold Parse
    rw [parseFrom_text _ _ _ _ ht]
    simp
  simp only [Compile, hp]
  refine ⟨_, rfl, ?_⟩
  by_cases h : t = ""
  · subst h
    rfl
  · simp [flushText, h, CompiledStyle.ExecuteToString, execNodes]

/-- C14 at "root beer": it has no left delimiter, compiles and renders as
itself. -/
theorem plain_text_round_trip_witness :
    ∃ style : CompiledStyle,
      Compile "root beer" noExtensions = .ok style
      ∧ (style.ExecuteToString (fun _ => none)).1 = .ok "root beer" :=
  (plain_text_round_trip "root beer" noExtensions (fun _ => none)).1 (by decide)

/-! ## Appending the reset placeholder -/

/-- The characters of `StyleReset`. -/
theorem StyleReset_data :
    StyleReset.data = leftDelim :: 'r' :: 'e' :: 's' :: 'e' :: 't' :: [rightDelim] := by
  decide

/-- From literal text, the reset placeholder at the end of the input is read
as one more action. -/
theorem parseFrom_reset_text (funcs : FuncMap) (h : knownName funcs "reset" = true)
    (acc : String) (nodes : List Node) :
    parseFrom funcs (.text acc) nodes StyleReset.data
      = .ok (flushText nodes acc ++ [.action "reset" []]) := by
  have s1 : ((((String.singleton 'r').push 'e').push 's').push 'e').push 't' = "reset" := by
    decide
  have a1 : ('r' : Char).isAlpha = true := by decide
  have a2 : ('e' : Char).isAlpha = true := by decide
  have a3 : ('s' : Char).isAlpha = true := by decide
  have a4 : ('t' : Char).isAlpha = true := by decide
  have a5 : rightDelim.isAlpha = false := by decide
  have a6 : rightDelim ≠ ' ' := by decide
  rw [StyleReset_data]
  simp [parseFrom, a1, a2, a3, a4, a5, a6, s1, h, flushText]

/-- Inside an action, the reset placeholder at the end of the input never
completes a parse. -/
theorem parseFrom_reset_inside (funcs : FuncMap) (S : Lex) (nodes ns : List Node)
    (hS : ∀ acc, S ≠ .text acc) :
    parseFrom funcs S nodes StyleReset.data ≠ .ok ns := by
  have b1 : leftDelim.isAlpha = false := by decide
  have b2 : leftDelim.isDigit = false := by decide
  have b3 : leftDelim ≠ ' ' := by decide
  have b4 : leftDelim ≠ rightDelim := by decide
  have b5 : leftDelim ≠ '-' := by decide
  have b6 : leftDelim ≠ '"' := by decide
  have b7 : leftDelim ≠ '\\' := by decide
  have b8 : leftDelim ≠ '\n' := by decide
  have b9 : rightDelim ≠ '"' := by decide
  have b10 : rightDelim ≠ '\\' := by decide
  have b11 : rightDelim ≠ '\n' := by decide
  rw [StyleReset_data]
  cases S with
  | text acc => exact absurd rfl (hS acc)
  | opened => simp [parseFrom, b1]
  | name acc => simp [parseFrom, b1, b3, b4]
  | gap fn args => simp [parseFrom, b2, b3, b4, b5, b6]
  | minus fn args => simp [parseFrom, b2]
  | num fn args neg lead0 val =>
    simp only [parseFrom, b2, b3, b4]
    cases intConst neg val <;> simp
  | str fn args acc => simp [parseFrom, b6, b7, b8, b9, b10, b11]
  | quoted fn args => simp [parseFrom, b3, b4]


/-- Parsing a text with the reset placeholder appended succeeds exactly when
parsing the text succeeds, and adds the `reset` action at the end. -/
theorem parseFrom_append_reset (funcs : FuncMap) (h : knownName funcs "reset" = true)
    (ns2 : List Node) :
    ∀ (cs : List Char) (S : Lex) (nodes : List Node),
      parseFrom funcs S nodes (cs ++ StyleReset.data) = .ok ns2
        ↔ ∃ ns, parseFrom funcs S nodes cs = .ok ns ∧ ns2 = ns ++ [.action "reset" []] := by
  intro cs
  induction cs with
  | nil =>
    intro S nodes
    by_cases hS : ∃ acc, S = .text acc
    · obtain ⟨acc, rfl⟩ := hS
      have e0 : parseFrom funcs (.text acc) nodes [] = .ok (flushText nodes acc) := by
        simp [parseFrom]
      rw [List.nil_append, parseFrom_reset_text funcs h, e0]
      constructor
      · intro e
        cases e
        exact ⟨_, rfl, rfl⟩
      · rintro ⟨ns, e, rfl⟩
        cases e
        rfl
    · have hS2 : ∀ acc, S ≠ .text acc := fun acc e => hS ⟨acc, e⟩
      constructor
      · intro e
        exact absurd e (parseFrom_reset_inside funcs S nodes ns2 hS2)
      · rintro ⟨ns, e, _⟩
        cases S <;> simp [parseFrom] at e
        exact absurd rfl (hS2 _)
  | cons c cs ih =>
    intro S nodes
    cases S <;> simp only [List.cons_append, parseFrom] <;> repeat' split
    all_goals first
      | exact ih _ _
      | simp


/-- Walking a list of nodes followed by another: the second list is walked
from the state and buffer left by the first, unless the first fails. -/
theorem execNodes_append (funcs : FuncMap) (ms : List Node) :
    ∀ (ns : List Node) (style : Style) (buffer : String),
      execNodes funcs (ns ++ ms) style buffer
        = match execNodes funcs ns style buffer with
          | (.ok out, style2) => execNodes funcs ms style2 out
          | (.error e, style2) => (.error e, style2) := by
  intro ns
  induction ns with
  | nil => intro style buffer; simp [execNodes]
  | cons n ns ih =>
    intro style buffer
    cases n with
    | text s =>
      simp only [List.cons_append, execNodes]
      exact ih _ _
    | action name args =>
      simp only [List.cons_append, execNodes]
      cases funcs name with
      | none => rfl
      | some fn =>
        simp only []
        rcases hc : fn.call name args style with ⟨r, st⟩
        cases r with
        | error e => rfl
        | ok out => exact ih _ _

/-- Walking nodes leaves the `NoColors` flag of the receiver as it was. -/
theorem execNodes_NoColors (funcs : FuncMap) :
    ∀ (ns : List Node) (style : Style) (buffer : String),
      (execNodes funcs ns style buffer).2.NoColors = style.NoColors := by
  intro ns
  induction ns with
  | nil => intro style buffer; rfl
  | cons n ns ih =>
    intro style buffer
    cases n with
    | text s => simp only [execNodes, ih]
    | action name args =>
      simp only [execNodes]
      cases funcs name with
      | none => rfl
      | some fn =>
        simp only []
        have hk := Function.call_NoColors fn name args style
        rcases hc : fn.call name args style with ⟨r, st⟩
        rw [hc] at hk
        cases r with
        | error e => exact hk
        | ok out =>
          simp only [ih]
          exact hk

/-- C11, as stated, fails: with an extension map that redefines `reset` to
print "X", the style compiled by CompileWithReset from `fg 1`, "a" renders
ESC[38;5;1m, "a", "X", which is not what `fg 1`, "a" renders followed by
ESC[0m, and leaves the foreground at 1. -/
theorem CompileWithReset_override_counterexample :
    ∃ style plain : CompiledStyle,
      CompileWithReset "\x7bfg 1\x7da" (constExtension "reset" "X") = .ok style
      ∧ Compile "\x7bfg 1\x7da" (constExtension "reset" "X") = .ok plain
      ∧ (plain.ExecuteToString (fun _ => none)).1 = .ok "\x1b[38;5;1ma"
      ∧ (style.ExecuteToString (fun _ => none)).1 = .ok "\x1b[38;5;1maX"
      ∧ "\x1b[38;5;1maX" ≠ "\x1b[38;5;1ma" ++ "\x1b[0m"
      ∧ (style.ExecuteToString (fun _ => none)).2.bound.foreground = 1 :=
  ⟨_, _, rfl, rfl, by rfl, by rfl, by decide, by rfl⟩


/-- A walk that ends with the built-in `reset`, begun with colours enabled:
when it succeeds, the walk without the `reset` succeeds from the same state,
the rendering is that walk's rendering followed by ESC[0m, and the state left
is (0, 0). -/
theorem execNodes_then_reset (funcs : FuncMap) (h : funcs "reset" = some .putReset)
    (nodes : List Node) (f b : Int) (out : String)
    (hout : (execNodes funcs (nodes ++ [.action "reset" []])
        { background := b, foreground := f, NoColors := false } "").1 = .ok out) :
    ∃ out0 : String,
      (execNodes funcs nodes { background := b, foreground := f, NoColors := false } "").1
        = .ok out0
      ∧ out = out0 ++ "\x1b[0m"
      ∧ (execNodes funcs (nodes ++ [.action "reset" []])
          { background := b, foreground := f, NoColors := false } "").2
        = { background := 0, foreground := 0, NoColors := false } := by
  simp only [execNodes_append] at hout ⊢
  have hnc := execNodes_NoColors funcs nodes
    { background := b, foreground := f, NoColors := false } ""
  rcases hr : execNodes funcs nodes
      { background := b, foreground := f, NoColors := false } "" with ⟨r, st⟩
  rw [hr] at hout hnc
  cases r with
  | error e => simp at hout
  | ok out0 =>
    obtain ⟨sb, sf, sn⟩ := st
    simp only at hnc
    subst hnc
    refine ⟨out0, rfl, ?_, ?_⟩
    · simp only [execNodes, h, Function.call] at hout
      injection hout with hout
      rw [← hout]
      rfl
    · simp only [execNodes, h, Function.call]
      rfl

/-- The built-in `reset` is the `reset` of the merged table when the
extension map does not name it. -/
theorem reset_known (extensions : FuncMap) (h : extensions "reset" = none) :
    withExtensions builtins extensions "reset" = some .putReset
    ∧ knownName (withExtensions builtins extensions) "reset" = true := by
  have h1 : withExtensions builtins extensions "reset" = some .putReset := by
    simp [withExtensions, h, builtins]
  refine ⟨h1, ?_⟩
  have h2 : "reset" ∉ keywords := by decide
  simp [knownName, h1, h2]

/-- C11, amended: for every text t and extension map, CompileWithReset of t is
Compile of t followed by the reset placeholder.  With the delimiters at their
defaults, for a text of the covered template language (literal text and calls
of directives on constant operands) and an extension map that does not
redefine `reset`: the text with the placeholder compiles exactly when t
compiles, its tree is the tree of t followed by the `reset` action, and every
successful execution, from any colour state, renders what t renders from that
state followed by ESC[0m and leaves the state (0, 0).  The same holds for every
sequence of literal text and directive calls walked with a table whose `reset`
is the built-in.  CompileWithReset of "123" renders "123", ESC[0m. -/
theorem CompileWithReset_spec (t : String) (extensions : FuncMap) (data : Data) :
    CompileWithReset t extensions = Compile (t ++ "\x7breset\x7d") extensions
    ∧ (extensions "reset" = none →
        (∀ style : CompiledStyle, CompileWithReset t extensions = .ok style →
          ∃ plain : CompiledStyle,
            Compile t extensions = .ok plain
            ∧ style.tree = plain.tree ++ [.action "reset" []]
            ∧ ∀ (f b : Int) (out : String),
                (CompiledStyle.ExecuteToString
                    { style with bound := { background := b, foreground := f, NoColors := false } }
                    data).1 = .ok out →
                ∃ out0 : String,
                  (CompiledStyle.ExecuteToString
                      { plain with
                        bound := { background := b, foreground := f, NoColors := false } }
                      data).1 = .ok out0
                  ∧ out = out0 ++ "\x1b[0m"
                  ∧ (CompiledStyle.ExecuteToString
                      { style with
                        bound := { background := b, foreground := f, NoColors := false } }
                      data).2.bound
                    = { background := 0, foreground := 0, NoColors := false })
        ∧ (∀ plain : CompiledStyle, Compile t extensions = .ok plain →
            ∃ style : CompiledStyle, CompileWithReset t extensions = .ok style))
    ∧ (∀ (funcs : FuncMap) (nodes : List Node) (f b : Int) (out : String),
        funcs "reset" = some .putReset →
        (execNodes funcs (nodes ++ [.action "reset" []])
            { background := b, foreground := f, NoColors := false } "").1 = .ok out →
        ∃ out0 : String,
          (execNodes funcs nodes { background := b, foreground := f, NoColors := false } "").1
            = .ok out0
          ∧ out = out0 ++ "\x1b[0m"
          ∧ (execNodes funcs (nodes ++ [.action "reset" []])
              { background := b, foreground := f, NoColors := false } "").2
            = { background := 0, foreground := 0, NoColors := false })
    ∧ (∃ st : CompiledStyle,
        CompileWithReset "123" noExtensions = .ok st
        ∧ (st.ExecuteToString data).1 = .ok "123\x1b[0m") := by
  refine ⟨rfl, ?_,
    fun funcs nodes f b out h hout => execNodes_then_reset funcs h nodes f b out hout,
    ⟨_, rfl, by rfl⟩⟩
  intro hext
  obtain ⟨hreset, hknown⟩ := reset_known extensions hext
  have hdata : (t ++ StyleReset).data = t.data ++ StyleReset.data := by
    simp [String.data_append]
  constructor
  · intro style hstyle
    obtain ⟨hparse, hfuncs, _, _⟩ := Compile_ok (t ++ StyleReset) extensions style hstyle
    unfold Parse at hparse
    rw [hdata] at hparse
    obtain ⟨ns, hns, htree⟩ :=
      (parseFrom_append_reset _ hknown style.tree t.data (.text "") []).1 hparse
    have hplain : Compile t extensions
        = .ok { tree := ns, funcs := withExtensions builtins extensions,
                bound := {}, self := {} } := by
      simp only [Compile, Parse, hns]
    refine ⟨_, hplain, htree, ?_⟩
    intro f b out hout
    have e1 := (CompiledStyle.ExecuteToString_eq
      { style with bound := { background := b, foreground := f, NoColors := false } } data)
    have e2 := (CompiledStyle.ExecuteToString_eq
      { tree := ns, funcs := withExtensions builtins extensions,
        bound := { background := b, foreground := f, NoColors := false },
        self := ({} : Style) } data)
    rw [e1.1] at hout
    rw [e1.2.1]
    simp only [hfuncs, htree, execNodes_append] at hout ⊢
    have hnc := execNodes_NoColors (withExtensions builtins extensions) ns
      { background := b, foreground := f, NoColors := false } ""
    rcases hr : execNodes (withExtensions builtins extensions) ns
        { background := b, foreground := f, NoColors := false } "" with ⟨r, st⟩
    rw [hr] at hout hnc
    cases r with
    | error e => simp at hout
    | ok out0 =>
      obtain ⟨sb, sf, sn⟩ := st
      simp only at hnc
      subst hnc
      refine ⟨out0, ?_, ?_, ?_⟩
      · show (CompiledStyle.ExecuteToString _ data).1 = _
        rw [e2.1, hr]
      · simp only [execNodes, hreset, Function.call] at hout
        injection hout with hout
        rw [← hout]
        rfl
      · simp only [hr, execNodes, hreset, Function.call]
        rfl
  · intro plain hplain
    obtain ⟨hparse, _, _, _⟩ := Compile_ok t extensions plain hplain
    unfold Parse at hparse
    have h2 := (parseFrom_append_reset _ hknown (plain.tree ++ [.action "reset" []])
      t.data (.text "") []).2 ⟨_, hparse, rfl⟩
    refine ⟨{ tree := plain.tree ++ [.action "reset" []],
              funcs := withExtensions builtins extensions, bound := {}, self := {} }, ?_⟩
    simp only [CompileWithReset, Compile, Parse, hdata, h2]

/-- C11 at t = "123" with no extensions: `reset` is not redefined, the text
with the placeholder compiles to a style that renders "123", ESC[0m from
(0, 0), and "123" alone compiles and renders a string that, followed by
ESC[0m, is that rendering. -/
theorem CompileWithReset_spec_witness :
    ∃ plain : CompiledStyle,
      Compile "123" noExtensions = .ok plain
      ∧ ∃ out0 : String,
          (CompiledStyle.ExecuteToString
              { plain with bound := { background := 0, foreground := 0, NoColors := false } }
              (fun _ => none)).1 = .ok out0
          ∧ "123\x1b[0m" = out0 ++ "\x1b[0m" := by
  obtain ⟨plain, h1, _, h3⟩ :=
    ((CompileWithReset_spec "123" noExtensions (fun _ => none)).2.1 rfl).1 _ rfl
  obtain ⟨out0, h4, h5, _⟩ := h3 0 0 "123\x1b[0m" (by rfl)
  exact ⟨plain, h1, out0, h4, h5⟩

/-! ## Emitted text against state -/

/-- The digits of a number are read back as the number. -/
theorem readNat_toDigits (k : Nat) : readNat (Nat.toDigits 10 k) = some k := by
  obtain ⟨ds, h1, h2, ⟨d, tl, h3, _⟩, h5⟩ := toDigitsCore_spec (k + 1) k [] (by omega)
  have hds : Nat.toDigits 10 k = ds := by simp [Nat.toDigits, h1]
  have hall : ds.all Char.isDigit = true := by
    rw [List.all_eq_true]
    exact h2
  have hne : ds ≠ [] := by simp [h3]
  have hv := h5 0
  simp only [Nat.zero_mul, Nat.zero_add] at hv
  simp [readNat, hds, hall, hne, hv]

/-- The decimal rendering of an `int` is read back as the `int`. -/
theorem readInt_Sprint (n : Int) : readInt (Sprint n).data = some n := by
  rw [Sprint_data]
  cases n with
  | ofNat k =>
    obtain ⟨ds, h1, h2, ⟨d, tl, h3, _⟩, _⟩ := toDigitsCore_spec (k + 1) k [] (by omega)
    have hds : Nat.toDigits 10 k = d :: tl := by simp [Nat.toDigits, h1, h3]
    have hd : d ≠ '-' := (isDigit_ne d (h2 d (by simp [h3]))).2.2
    have hr := readNat_toDigits k
    rw [hds] at hr
    show readInt (Nat.toDigits 10 k) = some (Int.ofNat k)
    rw [hds]
    unfold readInt
    split
    · rename_i e
      exact absurd (List.cons.inj e).1 hd
    · simp [hr]
  | negSucc k =>
    show readInt ('-' :: Nat.toDigits 10 (k + 1)) = some (Int.negSucc k)
    simp [readInt, readNat_toDigits, Int.negSucc_eq]

/-- The decimal rendering of an `int` has no end character. -/
theorem Sprint_no_codeEnd (n : Int) : codeEnd ∉ (Sprint n).data := by
  have key : ∀ k : Nat, codeEnd ∉ Nat.toDigits 10 k := by
    intro k hk
    obtain ⟨ds, h1, h2, _, _⟩ := toDigitsCore_spec (k + 1) k [] (by omega)
    have hds : Nat.toDigits 10 k = ds := by simp [Nat.toDigits, h1]
    rw [hds] at hk
    exact absurd (h2 _ hk) (by decide)
  rw [Sprint_data]
  cases n with
  | ofNat k => exact key k
  | negSucc k =>
    intro h
    rcases List.mem_cons.1 h with h | h
    · exact absurd h (by decide)
    · exact key _ h

/-- In the parameters of a code, characters up to the end character are
collected and the code is applied at the end character. -/
theorem replayFrom_params (rest : List Char) (colours : Int × Int) :
    ∀ (p acc : List Char), codeEnd ∉ p →
      replayFrom (.params acc) (p ++ codeEnd :: rest) colours
        = replayFrom .outside rest (applySGR (acc ++ p) colours) := by
  intro p
  induction p with
  | nil => intro acc _; simp [replayFrom]
  | cons c p ih =>
    intro acc h
    have hc : c ≠ codeEnd := fun e => h (by simp [e])
    have hp : codeEnd ∉ p := fun e => h (by simp [e])
    simp only [List.cons_append, replayFrom, hc, if_false]
    refine (ih (acc ++ [c]) hp).trans ?_
    simp

/-- Text without the start character changes nothing in a replay. -/
theorem replayFrom_plain (rest : List Char) (colours : Int × Int) :
    ∀ t : List Char, codeStart ∉ t →
      replayFrom .outside (t ++ rest) colours = replayFrom .outside rest colours := by
  intro t
  induction t with
  | nil => intro _; rfl
  | cons c t ih =>
    intro h
    have hc : c ≠ codeStart := fun e => h (by simp [e])
    have hp : codeStart ∉ t := fun e => h (by simp [e])
    simp only [List.cons_append, replayFrom, hc, if_false]
    exact ih hp

/-- One code with parameters p, followed by more text, applies p and goes on. -/
theorem replayFrom_code (p rest : List Char) (colours : Int × Int) (h : codeEnd ∉ p) :
    replayFrom .outside (codeStart :: '[' :: (p ++ codeEnd :: rest)) colours
      = replayFrom .outside rest (applySGR p colours) := by
  simp only [replayFrom, if_true]
  rw [replayFrom_params rest colours p [] h]
  simp

/-- The characters of what `getStyleCodes` returns with colours enabled. -/
theorem getStyleCodes_data (f b : Int) (attr : List String) :
    (Style.getStyleCodes { background := b, foreground := f, NoColors := false } attr).data
      = codeStart :: '[' :: ((Join attr ";").data ++ [codeEnd]) := by
  simp [Style.getStyleCodes, String.data_append, CodeStart]
  decide

/-- Replaying the text of `fg c` sets the foreground to c. -/
theorem replayFrom_putForeground (style : Style) (hs : style.NoColors = false) (c : Int)
    (rest : List Char) (colours : Int × Int) :
    replayFrom .outside ((style.putForeground c).1.data ++ rest) colours
      = replayFrom .outside rest (c, colours.2) := by
  obtain ⟨b, f, nc⟩ := style
  simp only at hs
  subst hs
  have hj : (Join [AttrForeground256, Sprint c] ";").data
      = '3' :: '8' :: ';' :: '5' :: ';' :: (Sprint c).data := by
    simp [Join, AttrForeground256, String.data_append]
  have hm : codeEnd ∉ '3' :: '8' :: ';' :: '5' :: ';' :: (Sprint c).data := by
    intro h
    simp only [List.mem_cons] at h
    rcases h with h | h | h | h | h | h
    · exact absurd h (by decide)
    · exact absurd h (by decide)
    · exact absurd h (by decide)
    · exact absurd h (by decide)
    · exact absurd h (by decide)
    · exact Sprint_no_codeEnd c h
  simp only [Style.putForeground, getStyleCodes_data, hj, List.cons_append, List.append_assoc,
    List.nil_append]
  have hcode := replayFrom_code _ rest colours hm
  simp only [List.cons_append] at hcode
  rw [hcode]
  simp [applySGR, readInt_Sprint]

/-- Replaying the text of `bg c` sets the background to c. -/
theorem replayFrom_putBackground (style : Style) (hs : style.NoColors = false) (c : Int)
    (rest : List Char) (colours : Int × Int) :
    replayFrom .outside ((style.putBackground c).1.data ++ rest) colours
      = replayFrom .outside rest (colours.1, c) := by
  obtain ⟨b, f, nc⟩ := style
  simp only at hs
  subst hs
  have hj : (Join [AttrBackground256, Sprint c] ";").data
      = '4' :: '8' :: ';' :: '5' :: ';' :: (Sprint c).data := by
    simp [Join, AttrBackground256, String.data_append]
  have hm : codeEnd ∉ '4' :: '8' :: ';' :: '5' :: ';' :: (Sprint c).data := by
    intro h
    simp only [List.mem_cons] at h
    rcases h with h | h | h | h | h | h
    · exact absurd h (by decide)
    · exact absurd h (by decide)
    · exact absurd h (by decide)
    · exact absurd h (by decide)
    · exact absurd h (by decide)
    · exact Sprint_no_codeEnd c h
  simp only [Style.putBackground, getStyleCodes_data, hj, List.cons_append, List.append_assoc,
    List.nil_append]
  have hcode := replayFrom_code _ rest colours hm
  simp only [List.cons_append] at hcode
  rw [hcode]
  simp [applySGR, readInt_Sprint]

/-- C16: with colours enabled, for every receiver and all operands, the text
arguments having no ESC, replaying the codes of the text that a built-in
directive returns over the pre-call (foreground, background) gives the
post-call (foreground, background): for `fg`, `bg`, `nofg`, `nobg`, `bold`,
`nobold`, `reverse`, `noreverse`, `reset`, `from` and `to`. -/
theorem text_encodes_state (style : Style) (c : Int) (t : String)
    (hs : style.NoColors = false) (ht : codeStart ∉ t.data) :
    replaySGR (style.putForeground c).1 (style.foreground, style.background)
        = ((style.putForeground c).2.foreground, (style.putForeground c).2.background)
    ∧ replaySGR (style.putBackground c).1 (style.foreground, style.background)
        = ((style.putBackground c).2.foreground, (style.putBackground c).2.background)
    ∧ replaySGR (style.putDefaultForeground).1 (style.foreground, style.background)
        = ((style.putDefaultForeground).2.foreground, (style.putDefaultForeground).2.background)
    ∧ replaySGR (style.putDefaultBackground).1 (style.foreground, style.background)
        = ((style.putDefaultBackground).2.foreground, (style.putDefaultBackground).2.background)
    ∧ replaySGR (style.putBold).1 (style.foreground, style.background)
        = ((style.putBold).2.foreground, (style.putBold).2.background)
    ∧ replaySGR (style.putNoBold).1 (style.foreground, style.background)
        = ((style.putNoBold).2.foreground, (style.putNoBold).2.background)
    ∧ replaySGR (style.putReverse).1 (style.foreground, style.background)
        = ((style.putReverse).2.foreground, (style.putReverse).2.background)
    ∧ replaySGR (style.putNoReverse).1 (style.foreground, style.background)
        = ((style.putNoReverse).2.foreground, (style.putNoReverse).2.background)
    ∧ replaySGR (style.putReset).1 (style.foreground, style.background)
        = ((style.putReset).2.foreground, (style.putReset).2.background)
    ∧ replaySGR (style.putTransitionFrom t c).1 (style.foreground, style.background)
        = ((style.putTransitionFrom t c).2.foreground,
           (style.putTransitionFrom t c).2.background)
    ∧ replaySGR (style.putTransitionTo c t).1 (style.foreground, style.background)
        = ((style.putTransitionTo c t).2.foreground,
           (style.putTransitionTo c t).2.background) := by
  have hfg := fun (st : Style) (h : st.NoColors = false) (n : Int) (rest : List Char)
      (col : Int × Int) => replayFrom_putForeground st h n rest col
  have hbg := fun (st : Style) (h : st.NoColors = false) (n : Int) (rest : List Char)
      (col : Int × Int) => replayFrom_putBackground st h n rest col
  obtain ⟨b, f, nc⟩ := style
  simp only at hs
  subst hs
  refine ⟨?_, ?_, by rfl, by rfl, by rfl, by rfl, by rfl, by rfl, by rfl, ?_, ?_⟩
  · have h := hfg ⟨b, f, false⟩ rfl c [] (f, b)
    rw [List.append_nil] at h
    exact h
  · have h := hbg ⟨b, f, false⟩ rfl c [] (f, b)
    rw [List.append_nil] at h
    exact h
  · have e : (Style.putTransitionFrom ⟨b, f, false⟩ t c).1.data
        = (Style.putForeground ⟨b, f, false⟩ b).1.data
          ++ ((Style.putBackground ⟨b, b, false⟩ c).1.data
          ++ (t.data ++ ((Style.putForeground ⟨c, b, false⟩ f).1.data ++ []))) := by
      simp [Style.putTransitionFrom, Style.putForeground, Style.putBackground,
        String.data_append]
    show replayFrom .outside _ _ = _
    rw [e, hfg _ rfl, hbg _ rfl, replayFrom_plain _ _ _ ht, hfg _ rfl]
    rfl
  · have e : (Style.putTransitionTo ⟨b, f, false⟩ c t).1.data
        = (Style.putForeground ⟨b, f, false⟩ c).1.data
          ++ (t.data ++ ((Style.putBackground ⟨b, c, false⟩ c).1.data
          ++ ((Style.putForeground ⟨c, c, false⟩ f).1.data ++ []))) := by
      simp [Style.putTransitionTo, Style.putForeground, Style.putBackground,
        String.data_append]
    show replayFrom .outside _ _ = _
    rw [e, hfg _ rfl, replayFrom_plain _ _ _ ht, hbg _ rfl, hfg _ rfl]
    rfl

/-- C16 at the state of the test (foreground 6, background 2) with colour 4
and text "ab": colours are enabled, the text has no ESC, and the replay of what
`from` returns gives the state that `from` leaves. -/
theorem text_encodes_state_witness :
    replaySGR
        (Style.putTransitionFrom { background := 2, foreground := 6, NoColors := false } "ab" 4).1
        (6, 2)
      = ((Style.putTransitionFrom
            { background := 2, foreground := 6, NoColors := false } "ab" 4).2.foreground,
         (Style.putTransitionFrom
            { background := 2, foreground := 6, NoColors := false } "ab" 4).2.background) :=
  (text_encodes_state { background := 2, foreground := 6, NoColors := false } 4 "ab" rfl
    (by decide)).2.2.2.2.2.2.2.2.2.1

end Loreley
